import Mathlib

/-!
# Papilio bootloader-hold sketch: `src/main.cpp`

The sketch consists of two lifecycle callbacks, `setup()` and `loop()`, which
call five primitives of the Arduino platform (`pinMode`, `digitalWrite`,
`Serial.begin`, `Serial.println`, `delay`).  The platform is not part of the
repository, so its primitives are embedded as the usual state transformers on
an explicit board state: the direction of every pin, the output latch of
every pin, the baud rate of the serial channel (if opened) and the trace of
all platform calls made so far, oldest first.

`setup` and `loop` are transcribed statement by statement from the source.
-/

namespace Bootloader

/-! ## Platform model -/

/-- Pin directions of the Arduino platform (`pinMode` second argument). -/
inductive PinMode where
  | INPUT
  | OUTPUT
  | INPUT_PULLUP
  deriving DecidableEq, Repr

/-- Logic levels of the Arduino platform (`digitalWrite` second argument). -/
inductive Level where
  | LOW
  | HIGH
  deriving DecidableEq, Repr

/-- One platform call, with its arguments, as it appears on the trace. -/
inductive Event where
  | pinMode (pin : Nat) (mode : PinMode)
  | digitalWrite (pin : Nat) (level : Level)
  | serialBegin (baud : Nat)
  | println (line : String)
  | delay (ms : Nat)
  deriving DecidableEq, Repr

/-- Explicit hardware state: pin directions, pin output levels, serial
configuration (`none` until the channel is opened) and the event trace. -/
structure Board where
  mode : Nat → PinMode
  level : Nat → Level
  serial : Option Nat
  trace : List Event

/-- Board state at power-on: every pin is an input, the serial channel is
closed and nothing has happened yet.  The latch values at power-on depend on
the platform; HIGH is taken here, the unfavourable value for the hold pin, so
that a low level can only come from a write.  The pin-state results below are
proved for every initial state, not only for this one. -/
def powerOn : Board :=
  { mode := fun _ => PinMode.INPUT
    level := fun _ => Level.HIGH
    serial := none
    trace := [] }

/-- Platform primitive `pinMode(pin, mode)`: sets the direction of one pin. -/
def pinMode (pin : Nat) (m : PinMode) (s : Board) : Board :=
  { s with
    mode := fun p => if p = pin then m else s.mode p
    trace := s.trace ++ [Event.pinMode pin m] }

/-- Platform primitive `digitalWrite(pin, level)`: sets the output latch of
one pin. -/
def digitalWrite (pin : Nat) (l : Level) (s : Board) : Board :=
  { s with
    level := fun p => if p = pin then l else s.level p
    trace := s.trace ++ [Event.digitalWrite pin l] }

/-- Platform primitive `Serial.begin(baud)`: opens the serial channel. -/
def Serial.begin (baud : Nat) (s : Board) : Board :=
  { s with
    serial := some baud
    trace := s.trace ++ [Event.serialBegin baud] }

/-- Platform primitive `Serial.println(line)`: emits one line of text. -/
def Serial.println (line : String) (s : Board) : Board :=
  { s with trace := s.trace ++ [Event.println line] }

/-- Platform primitive `delay(ms)`: pauses for `ms` milliseconds. -/
def delay (ms : Nat) (s : Board) : Board :=
  { s with trace := s.trace ++ [Event.delay ms] }

/-! ## The sketch (`src/main.cpp`) -/

/-- Source: `#define BOOTLOADER_HOLD 10`. -/
def BOOTLOADER_HOLD : Nat := 10

/-- Source: `void setup()`, lines 11-16. -/
def setup (s : Board) : Board :=
  let s := pinMode BOOTLOADER_HOLD PinMode.OUTPUT s
  let s := digitalWrite BOOTLOADER_HOLD Level.LOW s
  let s := Serial.begin 115200 s
  let s := Serial.println "Starting" s
  s

/-- Source: `void loop()`, lines 18-22. -/
def loop (s : Board) : Board :=
  let s := Serial.println "Loop" s
  let s := delay 2000 s
  s

/-- The platform calls `loop()` again and again: `n` iterations. -/
def iterate : Nat → Board → Board
  | 0, s => s
  | n + 1, s => iterate n (loop s)

/-- The program, observed after `setup()` and `n` iterations of `loop()`,
started from board state `s0`. -/
def run (s0 : Board) (n : Nat) : Board :=
  iterate n (setup s0)

/-- Event trace of the program started from power-on, observed after
`setup()` and `n` iterations of `loop()`. -/
def programTrace (n : Nat) : List Event :=
  (run powerOn n).trace

/-- Events of `setup()`, in program order. -/
def setupEvents : List Event :=
  [Event.pinMode 10 PinMode.OUTPUT, Event.digitalWrite 10 Level.LOW,
   Event.serialBegin 115200, Event.println "Starting"]

/-- Events of one call of `loop()`, in program order. -/
def loopEvents : List Event :=
  [Event.println "Loop", Event.delay 2000]

/-- The body `[println "Loop", delay 2000]` repeated `n` times. -/
def loopEventsTimes : Nat → List Event
  | 0 => []
  | n + 1 => loopEvents ++ loopEventsTimes n

/-! ## Observations on traces -/

/-- Text of a `Serial.println` event, `none` for every other event. -/
def Event.line? : Event → Option String
  | Event.println l => some l
  | _ => none

/-- Lines emitted on the serial channel, oldest first. -/
def serialLines (t : List Event) : List String :=
  t.filterMap Event.line?

/-- Recognises `Serial.println` events. -/
def isPrintln : Event → Bool
  | Event.println _ => true
  | _ => false

/-- Recognises `Serial.begin` events. -/
def isSerialBegin : Event → Bool
  | Event.serialBegin _ => true
  | _ => false

/-- Recognises `digitalWrite` events. -/
def isPinWrite : Event → Bool
  | Event.digitalWrite _ _ => true
  | _ => false

/-- Recognises events that write HIGH to some pin. -/
def writesHigh : Event → Bool
  | Event.digitalWrite _ Level.HIGH => true
  | _ => false

/-- Pin an event acts on, `none` for events that act on no pin. -/
def Event.pin? : Event → Option Nat
  | Event.pinMode p _ => some p
  | Event.digitalWrite p _ => some p
  | _ => none

/-- Recognises events that act on a pin other than `pin`. -/
def touchesOtherPin (pin : Nat) (e : Event) : Bool :=
  match e.pin? with
  | some p => p != pin
  | none => false

/-- Time an event takes: the requested pause for `delay`, zero otherwise. -/
def pause : Event → Nat
  | Event.delay ms => ms
  | _ => 0

/-- Total pause requested by a trace, in milliseconds. -/
def elapsed (t : List Event) : Nat :=
  (t.map pause).sum

/-- Pairs every event of a trace with the time at which it starts, the trace
starting at time `now`. -/
def timeline : Nat → List Event → List (Nat × Event)
  | _, [] => []
  | now, e :: es => (now, e) :: timeline (now + pause e) es

/-- Times, counted from the start of the trace, at which the line `line` is
emitted on the serial channel. -/
def emissionTimes (line : String) (t : List Event) : List Nat :=
  ((timeline 0 t).filter (fun p => p.2 = Event.println line)).map Prod.fst

/-- Segments of a trace between two consecutive "Loop" lines: the trace is
cut at every `println "Loop"`, and the part before the first cut and the part
after the last cut are dropped. -/
def betweenLoops (t : List Event) : List (List Event) :=
  ((t.splitOn (Event.println "Loop")).tail).dropLast

/-! ## Step relation of the whole program -/

/-- Control point of the program: before `setup()`, or inside the endless
sequence of `loop()` calls. -/
inductive Phase where
  | boot
  | running
  deriving DecidableEq, Repr

/-- Program configuration: control point and board state. -/
structure Config where
  phase : Phase
  board : Board

/-- Configuration at power-on. -/
def start : Config :=
  { phase := Phase.boot, board := powerOn }

/-- One step of the program: `setup()` once, then `loop()` repeatedly. -/
inductive Step : Config → Config → Prop where
  | setup (s : Board) : Step ⟨Phase.boot, s⟩ ⟨Phase.running, Bootloader.setup s⟩
  | loop (s : Board) : Step ⟨Phase.running, s⟩ ⟨Phase.running, Bootloader.loop s⟩

/-- Configurations the program can reach from power-on. -/
inductive Reachable : Config → Prop where
  | start : Reachable Bootloader.start
  | step {c d : Config} : Reachable c → Step c d → Reachable d

/-- Configuration `d` can be reached from configuration `c`. -/
inductive ReachableFrom (c : Config) : Config → Prop where
  | here : ReachableFrom c c
  | step {d e : Config} : ReachableFrom c d → Step d e → ReachableFrom c e

/-- Number of "Loop" lines emitted so far in a configuration. -/
def loopLines (c : Config) : Nat :=
  (serialLines c.board.trace).count "Loop"

/-! ## Basic lemmas -/

theorem setup_trace (s : Board) : (setup s).trace = s.trace ++ setupEvents := by
  simp [setup, pinMode, digitalWrite, Serial.begin, Serial.println, setupEvents,
    BOOTLOADER_HOLD]

theorem loop_trace (s : Board) : (loop s).trace = s.trace ++ loopEvents := by
  simp [loop, Serial.println, delay, loopEvents]

theorem loop_mode (s : Board) : (loop s).mode = s.mode := rfl

theorem loop_level (s : Board) : (loop s).level = s.level := rfl

theorem loop_serial (s : Board) : (loop s).serial = s.serial := rfl

theorem iterate_mode (n : Nat) (s : Board) : (iterate n s).mode = s.mode := by
  induction n generalizing s with
  | zero => rfl
  | succ k ih => rw [iterate, ih, loop_mode]

theorem iterate_level (n : Nat) (s : Board) : (iterate n s).level = s.level := by
  induction n generalizing s with
  | zero => rfl
  | succ k ih => rw [iterate, ih, loop_level]

theorem iterate_serial (n : Nat) (s : Board) : (iterate n s).serial = s.serial := by
  induction n generalizing s with
  | zero => rfl
  | succ k ih => rw [iterate, ih, loop_serial]

theorem iterate_trace (n : Nat) (s : Board) :
    (iterate n s).trace = s.trace ++ loopEventsTimes n := by
  induction n generalizing s with
  | zero => simp [iterate, loopEventsTimes]
  | succ k ih => rw [iterate, ih, loop_trace, loopEventsTimes, List.append_assoc]

theorem iterate_succ (n : Nat) (s : Board) : iterate (n + 1) s = loop (iterate n s) := by
  induction n generalizing s with
  | zero => rfl
  | succ k ih => rw [iterate, ih (loop s)]; rfl

theorem programTrace_eq (n : Nat) : programTrace n = setupEvents ++ loopEventsTimes n := by
  simp [programTrace, run, iterate_trace, setup_trace, powerOn]

theorem loopEventsTimes_succ (n : Nat) :
    loopEventsTimes (n + 1) = Event.println "Loop" :: Event.delay 2000 :: loopEventsTimes n := rfl

theorem loopEventsTimes_flatten (n : Nat) :
    loopEventsTimes n = (List.replicate n loopEvents).flatten := by
  induction n with
  | zero => rfl
  | succ k ih => rw [loopEventsTimes, ih, List.replicate_succ, List.flatten_cons]

theorem serialLines_append (t u : List Event) :
    serialLines (t ++ u) = serialLines t ++ serialLines u := by
  simp [serialLines]

theorem serialLines_loopEventsTimes (n : Nat) :
    serialLines (loopEventsTimes n) = List.replicate n "Loop" := by
  induction n with
  | zero => rfl
  | succ k ih =>
    rw [loopEventsTimes_succ, List.replicate_succ, ← ih]
    simp [serialLines, Event.line?]

theorem serialLines_programTrace (n : Nat) :
    serialLines (programTrace n) = "Starting" :: List.replicate n "Loop" := by
  rw [programTrace_eq, serialLines_append, serialLines_loopEventsTimes]
  simp [serialLines, setupEvents, Event.line?]

theorem count_loop_loopEventsTimes (n : Nat) :
    (loopEventsTimes n).count (Event.println "Loop") = n := by
  induction n with
  | zero => rfl
  | succ k ih => simp [loopEventsTimes_succ, ih]

theorem count_starting_loopEventsTimes (n : Nat) :
    (loopEventsTimes n).count (Event.println "Starting") = 0 := by
  induction n with
  | zero => rfl
  | succ k ih => simp [loopEventsTimes_succ, ih]

theorem filter_loopEventsTimes (p : Event → Bool) (h1 : p (Event.println "Loop") = false)
    (h2 : p (Event.delay 2000) = false) (n : Nat) :
    (loopEventsTimes n).filter p = [] := by
  induction n with
  | zero => rfl
  | succ k ih => simp [loopEventsTimes_succ, h1, h2, ih]

theorem all_loopEventsTimes (p : Event → Bool) (h1 : p (Event.println "Loop") = true)
    (h2 : p (Event.delay 2000) = true) (n : Nat) :
    (loopEventsTimes n).all p = true := by
  induction n with
  | zero => rfl
  | succ k ih =>
    rw [loopEventsTimes_succ, List.all_cons, List.all_cons, h1, h2, ih]
    rfl

theorem elapsed_append (t u : List Event) : elapsed (t ++ u) = elapsed t + elapsed u := by
  simp [elapsed]

theorem elapsed_loopEventsTimes (n : Nat) : elapsed (loopEventsTimes n) = 2000 * n := by
  induction n with
  | zero => rfl
  | succ k ih =>
    have h : elapsed (loopEventsTimes (k + 1)) = 2000 + elapsed (loopEventsTimes k) := by
      simp [loopEventsTimes_succ, elapsed, pause]
    rw [h, ih]
    ring

theorem timeline_loopEventsTimes (line : String) (now n : Nat) :
    ((timeline now (loopEventsTimes n)).filter
        (fun p => p.2 = Event.println line)).map Prod.fst
      = if line = "Loop" then (List.range n).map (fun k => now + 2000 * k) else [] := by
  induction n generalizing now with
  | zero => simp [loopEventsTimes, timeline]
  | succ k ih =>
    have hstep : timeline now (loopEventsTimes (k + 1))
        = (now, Event.println "Loop") :: (now, Event.delay 2000)
            :: timeline (now + 2000) (loopEventsTimes k) := by
      simp [loopEventsTimes_succ, timeline, pause]
    rw [hstep]
    by_cases hl : line = "Loop"
    · subst hl
      have := ih (now + 2000)
      simp only [if_true] at this
      simp only [List.filter_cons, decide_True, if_true, List.map_cons]
      simp only [reduceCtorEq, decide_False, Bool.false_eq_true, if_false, this, if_true]
      rw [List.range_succ_eq_map, List.map_cons, List.map_map]
      simp only [Nat.mul_zero, Nat.add_zero, List.cons.injEq, true_and]
      apply List.map_congr_left
      intro a _
      simp only [Function.comp, Nat.succ_eq_add_one]
      ring
    · have hne : ¬ ("Loop" = line) := fun h => hl h.symm
      have := ih (now + 2000)
      simp only [hl, if_false] at this
      simp [hl, hne, this]

theorem splitOn_loopEventsTimes (n : Nat) :
    (loopEventsTimes n).splitOn (Event.println "Loop")
      = [] :: List.replicate n [Event.delay 2000] := by
  induction n with
  | zero => rfl
  | succ k ih =>
    unfold List.splitOn at ih ⊢
    rw [loopEventsTimes_succ, List.splitOnP_cons, List.splitOnP_cons, ih]
    simp [List.modifyHead, List.replicate_succ]

theorem splitOn_programTrace (n : Nat) :
    (programTrace n).splitOn (Event.println "Loop")
      = setupEvents :: List.replicate n [Event.delay 2000] := by
  have h := splitOn_loopEventsTimes n
  unfold List.splitOn at h ⊢
  rw [programTrace_eq]
  simp [setupEvents, List.splitOnP_cons, h, List.modifyHead]

theorem step_exists (c : Config) : ∃ d, Step c d := by
  obtain ⟨ph, b⟩ := c
  cases ph with
  | boot => exact ⟨_, Step.setup b⟩
  | running => exact ⟨_, Step.loop b⟩

theorem reachable_of_reachableFrom {c d : Config} (hc : Reachable c)
    (h : ReachableFrom c d) : Reachable d := by
  induction h with
  | here => exact hc
  | step _ hs ih => exact Reachable.step ih hs

theorem reachable_run (n : Nat) : Reachable ⟨Phase.running, run powerOn n⟩ := by
  induction n with
  | zero => exact Reachable.step Reachable.start (Step.setup powerOn)
  | succ k ih =>
    have h : run powerOn (k + 1) = loop (run powerOn k) := iterate_succ k _
    rw [h]
    exact Reachable.step ih (Step.loop _)

theorem loopLines_setup (s : Board) :
    loopLines ⟨Phase.running, setup s⟩ = loopLines ⟨Phase.boot, s⟩ := by
  simp [loopLines, setup_trace, serialLines_append, serialLines, setupEvents, Event.line?]

theorem loopLines_loop (s : Board) :
    loopLines ⟨Phase.running, loop s⟩ = loopLines ⟨Phase.running, s⟩ + 1 := by
  simp [loopLines, loop_trace, serialLines_append, serialLines, loopEvents, Event.line?]

theorem more_loop_lines (c : Config) (n : Nat) :
    ∃ d, ReachableFrom c d ∧ d.phase = Phase.running ∧ loopLines d = loopLines c + n := by
  induction n with
  | zero =>
    obtain ⟨ph, b⟩ := c
    cases ph with
    | boot =>
      exact ⟨_, ReachableFrom.step ReachableFrom.here (Step.setup b), rfl, loopLines_setup b⟩
    | running => exact ⟨_, ReachableFrom.here, rfl, rfl⟩
  | succ k ih =>
    obtain ⟨⟨ph, b⟩, hr, hp, hl⟩ := ih
    simp only at hp
    subst hp
    refine ⟨_, ReachableFrom.step hr (Step.loop b), rfl, ?_⟩
    rw [loopLines_loop, hl, Nat.add_assoc]

/-! ## Claims -/

/-- C1: after `setup()` and any number `n` of iterations of `loop()`, from any
initial board state, pin BOOTLOADER_HOLD (pin 10) is configured as OUTPUT and
its level is LOW. -/
theorem hold_pin_output_low (s0 : Board) (n : Nat) :
    BOOTLOADER_HOLD = 10 ∧
    (run s0 n).mode BOOTLOADER_HOLD = PinMode.OUTPUT ∧
    (run s0 n).level BOOTLOADER_HOLD = Level.LOW := by
  refine ⟨rfl, ?_, ?_⟩
  · rw [run, iterate_mode]; rfl
  · rw [run, iterate_level]; rfl

/-- C2: for every `n`, the serial output of `setup()` followed by `n`
iterations of `loop()` is "Starting" followed by `n` "Loop" lines, so it
contains exactly one "Starting" line and that line is the first one; the
`println "Starting"` is the last event of `setup()` from any board state, and
the first four events of the program trace are exactly the events of
`setup()`, which end with it. -/
theorem starting_once_first_and_last_of_setup (s : Board) (n : Nat) :
    serialLines (programTrace n) = "Starting" :: List.replicate n "Loop" ∧
    (serialLines (programTrace n)).count "Starting" = 1 ∧
    (serialLines (programTrace n)).head? = some "Starting" ∧
    (programTrace n).count (Event.println "Starting") = 1 ∧
    (setup s).trace.getLast? = some (Event.println "Starting") ∧
    (setup s).trace.length = s.trace.length + 4 ∧
    (programTrace n).take 4 = (setup powerOn).trace ∧
    (programTrace n).get? 3 = some (Event.println "Starting") := by
  have hl := serialLines_programTrace n
  refine ⟨hl, ?_, ?_, ?_, ?_, ?_, ?_, ?_⟩
  · rw [hl]
    simp [List.count_cons, List.count_replicate]
  · rw [hl]
    rfl
  · rw [programTrace_eq, List.count_append]
    have h0 := count_starting_loopEventsTimes n
    rw [h0]
    simp [setupEvents]
  · rw [setup_trace]
    simp [setupEvents]
  · rw [setup_trace]
    simp [setupEvents]
  · rw [programTrace_eq, setup_trace]
    simp [setupEvents, powerOn]
  · rw [programTrace_eq]
    simp [setupEvents]

/-- C3: every call of `loop()` appends exactly `println "Loop"` and then
`delay 2000` to the trace, so it emits exactly one more "Loop" line; for every
`n` the trace of `setup()` followed by `n` iterations contains exactly `n`
"Loop" lines, and cutting the trace at the "Loop" lines leaves the events of
`setup()` followed by `n` segments that each consist of the single event
`delay 2000`: between two consecutive "Loop" lines there is exactly one pause
of 2000 ms and nothing else. -/
theorem loop_line_then_pause (s : Board) (n : Nat) :
    (loop s).trace = s.trace ++ [Event.println "Loop", Event.delay 2000] ∧
    (serialLines (loop s).trace).count "Loop" = (serialLines s.trace).count "Loop" + 1 ∧
    (serialLines (programTrace n)).count "Loop" = n ∧
    (programTrace n).count (Event.println "Loop") = n ∧
    (programTrace n).splitOn (Event.println "Loop")
      = [Event.pinMode 10 PinMode.OUTPUT, Event.digitalWrite 10 Level.LOW,
          Event.serialBegin 115200, Event.println "Starting"]
        :: List.replicate n [Event.delay 2000] ∧
    betweenLoops (programTrace n) = List.replicate (n - 1) [Event.delay 2000] := by
  refine ⟨loop_trace s, ?_, ?_, ?_, ?_, ?_⟩
  · rw [loop_trace, serialLines_append, List.count_append]
    simp [serialLines, loopEvents, Event.line?]
  · rw [serialLines_programTrace]
    simp [List.count_cons, List.count_replicate]
  · rw [programTrace_eq, List.count_append, count_loop_loopEventsTimes]
    simp [setupEvents]
  · exact splitOn_programTrace n
  · rw [betweenLoops, splitOn_programTrace, List.tail_cons]
    cases n with
    | zero => rfl
    | succ k =>
      rw [Nat.add_sub_cancel, List.replicate_succ', List.dropLast_concat]

/-- C4: for every `n`, the complete event trace of `setup()` followed by `n`
iterations of `loop()` is `pinMode(10, OUTPUT)`, `digitalWrite(10, LOW)`,
`Serial.begin(115200)`, `println "Starting"`, followed by `n` repetitions of
`println "Loop"`, `delay 2000`; every serial line is "Starting" or "Loop";
and `loop()` leaves the pin modes, the pin levels and the serial configuration
of any board state unchanged. -/
theorem complete_trace_and_frame (s : Board) (n : Nat) :
    programTrace n
      = [Event.pinMode 10 PinMode.OUTPUT, Event.digitalWrite 10 Level.LOW,
          Event.serialBegin 115200, Event.println "Starting"]
        ++ (List.replicate n [Event.println "Loop", Event.delay 2000]).flatten ∧
    (serialLines (programTrace n)).all (fun l => l == "Starting" || l == "Loop") = true ∧
    (loop s).mode = s.mode ∧
    (loop s).level = s.level ∧
    (loop s).serial = s.serial ∧
    (run s n).mode = (setup s).mode ∧
    (run s n).level = (setup s).level ∧
    (run s n).serial = (setup s).serial := by
  refine ⟨?_, ?_, rfl, rfl, rfl, iterate_mode n _, iterate_level n _, iterate_serial n _⟩
  · rw [programTrace_eq, loopEventsTimes_flatten]
    rfl
  · rw [serialLines_programTrace]
    simp

/-- C5: the program never terminates.  In the step relation whose steps are
`setup()` once and then `loop()` repeatedly, every reachable configuration has
a successor, which is reachable again; from every reachable configuration the
program goes on to a running configuration in which `n` more "Loop" lines
have been emitted, for every `n`; and the configuration after `setup()` and
`n` iterations of `loop()` is reachable and has emitted exactly `n` "Loop"
lines. -/
theorem program_never_terminates (c : Config) (h : Reachable c) (n : Nat) :
    (∃ d, Step c d ∧ Reachable d) ∧
    (∃ d, ReachableFrom c d ∧ Reachable d ∧ d.phase = Phase.running ∧
      loopLines d = loopLines c + n) ∧
    Reachable ⟨Phase.running, run powerOn n⟩ ∧
    loopLines ⟨Phase.running, run powerOn n⟩ = n := by
  refine ⟨?_, ?_, reachable_run n, ?_⟩
  · obtain ⟨d, hd⟩ := step_exists c
    exact ⟨d, hd, Reachable.step h hd⟩
  · obtain ⟨d, hr, hp, hl⟩ := more_loop_lines c n
    exact ⟨d, hr, reachable_of_reachableFrom h hr, hp, hl⟩
  · have hl : serialLines (run powerOn n).trace = "Starting" :: List.replicate n "Loop" :=
      serialLines_programTrace n
    rw [loopLines, hl]
    simp [List.count_cons, List.count_replicate]

/-- Witness for C5 at the power-on configuration, asking for three more
"Loop" lines. -/
theorem program_never_terminates_witness :
    Reachable start ∧
    ((∃ d, Step start d ∧ Reachable d) ∧
     (∃ d, ReachableFrom start d ∧ Reachable d ∧ d.phase = Phase.running ∧
       loopLines d = loopLines start + 3) ∧
     Reachable ⟨Phase.running, run powerOn 3⟩ ∧
     loopLines ⟨Phase.running, run powerOn 3⟩ = 3) :=
  ⟨Reachable.start, program_never_terminates start Reachable.start 3⟩

/-- C6: in the trace of `setup()` followed by any `n` iterations of `loop()`
there is exactly one `Serial.begin` event, its argument is 115200, and no
`println` event occurs before it (it is the event at index 2, the first
`println` is at index 3); the serial configuration of the board is 115200
baud from the end of `setup()` on. -/
theorem serial_opened_once_before_output (s : Board) (n : Nat) :
    (programTrace n).filter isSerialBegin = [Event.serialBegin 115200] ∧
    (programTrace n).countP isSerialBegin = 1 ∧
    ((programTrace n).takeWhile (fun e => !isSerialBegin e)).any isPrintln = false ∧
    (programTrace n).findIdx isSerialBegin = 2 ∧
    (programTrace n).findIdx isPrintln = 3 ∧
    (run s n).serial = some 115200 := by
  have hf : (programTrace n).filter isSerialBegin = [Event.serialBegin 115200] := by
    rw [programTrace_eq, List.filter_append, filter_loopEventsTimes _ rfl rfl]
    rfl
  refine ⟨hf, ?_, ?_, ?_, ?_, ?_⟩
  · rw [List.countP_eq_length_filter, hf]
    rfl
  · rw [programTrace_eq]
    simp [setupEvents, isSerialBegin, isPrintln, List.takeWhile]
  · rw [programTrace_eq]
    simp [setupEvents, isSerialBegin, List.findIdx_cons]
  · rw [programTrace_eq]
    simp [setupEvents, isPrintln, List.findIdx_cons]
  · rw [run, iterate_serial]
    rfl

/-- C7: for every `n`, the trace of `setup()` followed by `n` iterations of
`loop()` contains exactly one pin-write event, `digitalWrite(10, LOW)`; it is
immediately preceded by `pinMode(10, OUTPUT)`, and no `Serial.begin` or
`println` event occurs before it; no event writes HIGH to a pin or acts on a
pin other than 10; and the level of every pin after `n` iterations is the
level it had at the end of `setup()`. -/
theorem pin_written_once_low (s : Board) (n : Nat) :
    (programTrace n).filter isPinWrite = [Event.digitalWrite 10 Level.LOW] ∧
    (programTrace n).take 2
      = [Event.pinMode 10 PinMode.OUTPUT, Event.digitalWrite 10 Level.LOW] ∧
    ((programTrace n).takeWhile (fun e => !isPinWrite e)).any
      (fun e => isSerialBegin e || isPrintln e) = false ∧
    (programTrace n).all (fun e => !writesHigh e && !touchesOtherPin 10 e) = true ∧
    (run s n).level = (setup s).level ∧
    (run s n).level 10 = Level.LOW := by
  refine ⟨?_, ?_, ?_, ?_, iterate_level n _, ?_⟩
  · rw [programTrace_eq, List.filter_append, filter_loopEventsTimes _ rfl rfl]
    rfl
  · rw [programTrace_eq]
    rfl
  · rw [programTrace_eq]
    simp [setupEvents, isPinWrite, isSerialBegin, isPrintln, List.takeWhile]
  · rw [programTrace_eq, List.all_append, all_loopEventsTimes _ rfl rfl]
    rfl
  · rw [run, iterate_level]
    rfl

/-- C8: counting only the pauses requested by `delay()` as elapsed time, in
the trace of `setup()` followed by `n` iterations of `loop()` the "Starting"
line is emitted at time 0 and the "Loop" lines are emitted at times
0, 2000, ..., 2000*(n-1), that is the k-th one (k >= 1) at 2000*(k-1) ms after
"Starting" (the list of times is indexed from 0, so its entry `k` is the time
of line number `k + 1`); the event following "Starting" is the first "Loop",
with no pause in between; and the total requested pause after `n` iterations
is 2000*n ms. -/
theorem loop_line_times (n k : Nat) :
    emissionTimes "Starting" (programTrace n) = [0] ∧
    emissionTimes "Loop" (programTrace n) = (List.range n).map (fun j => 2000 * j) ∧
    (emissionTimes "Loop" (programTrace n)).get? k
      = (if k < n then some (2000 * k) else none) ∧
    ((programTrace (n + 1)).drop 3).take 2
      = [Event.println "Starting", Event.println "Loop"] ∧
    elapsed (programTrace n) = 2000 * n := by
  have hS : emissionTimes "Starting" (programTrace n) = [0] := by
    have h := timeline_loopEventsTimes "Starting" 0 n
    rw [if_neg (by decide)] at h
    rw [emissionTimes, programTrace_eq]
    simp only [setupEvents, List.cons_append, List.nil_append, timeline, pause, Nat.add_zero]
    simp [h]
  have hL : emissionTimes "Loop" (programTrace n)
      = (List.range n).map (fun j => 2000 * j) := by
    have h := timeline_loopEventsTimes "Loop" 0 n
    rw [if_pos rfl] at h
    rw [emissionTimes, programTrace_eq]
    simp only [setupEvents, List.cons_append, List.nil_append, timeline, pause, Nat.add_zero]
    simpa using h
  refine ⟨hS, hL, ?_, ?_, ?_⟩
  · rw [hL]
    by_cases hk : k < n
    · simp [hk, List.getElem?_range]
    · simp [hk]
      omega
  · rw [programTrace_eq, loopEventsTimes_succ]
    rfl
  · rw [programTrace_eq, elapsed_append, elapsed_loopEventsTimes]
    simp [elapsed, setupEvents, pause]

end Bootloader
